import Mathlib

/-!
Verification development for the dc-cli content migration commands.

The move command (source file: the `move` handler) is embedded as a function
from an environment of collaborator outcomes to the trace of effects it
performs, the log entries it appends, whether it closed its log, and the
exception (if any) escaping the handler.  The event export command (source
file: the `export <dir>` handler with `enrichEvents`, `getExportRecordForEvent`,
`getEventExports`, `processEvents`, `filterEvents`) is embedded the same way.

External collaborators (`copy.handler`, the API client, `FileLog`,
`uniqueFilenamePath`, prompts) are out of the provided sources; they are
modelled at their interface, following the specification where their
behaviour matters.
-/

namespace DcCli

/-! ## Move command model -/

/-- Entity status from the management SDK (ACTIVE, ARCHIVED, DELETED). -/
inductive Status where
  | active
  | archived
  | deleted
deriving DecidableEq, Repr

/-- The fields of a content item the move handler reads. -/
structure ContentItem where
  id : String
  status : Status
deriving DecidableEq, Repr

/-- Modelled from the spec: a `FileLog` entry is either an action line
(`addAction(kind, payload)`) or a comment line (`addComment(text)`);
`FileLog` itself (common/file-log) is not among the provided sources. -/
inductive LogEntry where
  | action (kind : String) (payload : String)
  | comment (text : String)
deriving DecidableEq, Repr

/-- Observable operations the move handler performs, in order. -/
inductive MoveEffect where
  | getItem (id : String)
  | archiveCall (id : String)
  | unarchiveCall (id : String)
  | consoleLog (msg : String)
  | revertDelegate
deriving DecidableEq, Repr

/-- Environment of collaborator outcomes for one run of the move handler.
`copySuccess` and `exportedIds` are the boolean result of `copy.handler` and
the `argv.exportedIds` accumulator it populates; `fetch id` is the outcome of
`client.contentItems.get(id)`; `archiveOutcome id` / `unarchiveOutcome id` are
the outcomes of `related.archive()` / `related.unarchive()` on the item
fetched for `id`; `loadLog` is the outcome of `log.loadFromFile(revertLog)`. -/
structure MoveEnv where
  copySuccess : Bool
  exportedIds : List String
  fetch : String → Except String ContentItem
  archiveOutcome : String → Except String Unit
  unarchiveOutcome : String → Except String Unit
  loadLog : Except String (List LogEntry)

/-- Modelled from the spec: `FileLog.getData(kind)` returns the ordered
sequence of payloads for a given kind, preserving original append order
(common/file-log is not among the provided sources). -/
def getData (kind : String) (entries : List LogEntry) : List String :=
  entries.filterMap fun e =>
    match e with
    | .action k p => if k = kind then some p else none
    | .comment _ => none

/-- The archive phase of the forward move: for each exported ID, fetch the
item (NOT inside the try block: a fetch failure aborts the loop and escapes),
then try `archive()`; on success append a MOVED action, on failure append two
comments and continue.  Returns the effect trace, the log entries appended,
and the uncaught error, if any. -/
def archiveLoop (env : MoveEnv) : List String → List MoveEffect × List LogEntry × Option String
  | [] => ([], [], none)
  | id :: rest =>
    match env.fetch id with
    | .error e => ([.getItem id], [], some e)
    | .ok item =>
      match env.archiveOutcome id, archiveLoop env rest with
      | .ok _, (t, l, r) =>
        (.getItem id :: .archiveCall id :: t, .action "MOVED" item.id :: l, r)
      | .error e, (t, l, r) =>
        (.getItem id :: .archiveCall id :: t,
         .comment ("ARCHIVE FAILED: " ++ item.id) :: .comment e :: l, r)

/-- The revert loop of the move handler: for each MOVED id, fetch (a failure
is caught: print a skip message, continue); if the status is not ACTIVE, try
`unarchive()` (a failure is caught: print a skip message, continue); otherwise
print an informational message.  The second component is the uncaught error
escaping the loop, if any. -/
def revertLoop (env : MoveEnv) : List String → List MoveEffect × Option String
  | [] => ([], none)
  | id :: rest =>
    match env.fetch id with
    | .error _ =>
      match revertLoop env rest with
      | (t, r) =>
        (.getItem id :: .consoleLog ("Could not find item with id " ++ id ++ ", skipping.") :: t, r)
    | .ok item =>
      if item.status ≠ Status.active then
        match env.unarchiveOutcome id, revertLoop env rest with
        | .ok _, (t, r) => (.getItem id :: .unarchiveCall id :: t, r)
        | .error _, (t, r) =>
          (.getItem id :: .unarchiveCall id ::
             .consoleLog ("Could not unarchive item with id " ++ id ++ ", skipping.") :: t, r)
      else
        match revertLoop env rest with
        | (t, r) =>
          (.getItem id ::
             .consoleLog ("Item with id " ++ id ++ " is already unarchived, skipping.") :: t, r)

/-- The per-item behaviour of the revert loop, used to state that the loop
treats the IDs independently. -/
def revertPerItem (env : MoveEnv) (id : String) : List MoveEffect :=
  match env.fetch id with
  | .error _ =>
    [.getItem id, .consoleLog ("Could not find item with id " ++ id ++ ", skipping.")]
  | .ok item =>
    if item.status ≠ Status.active then
      match env.unarchiveOutcome id with
      | .ok _ => [.getItem id, .unarchiveCall id]
      | .error _ =>
        [.getItem id, .unarchiveCall id,
         .consoleLog ("Could not unarchive item with id " ++ id ++ ", skipping.")]
    else
      [.getItem id, .consoleLog ("Item with id " ++ id ++ " is already unarchived, skipping.")]

/-- The observable outcome of one run of the move handler: effect trace, log
entries appended to the `FileLog` created for the run, whether `close()` was
called on it, and the exception escaping the handler, if any. -/
structure MoveRun where
  effects : List MoveEffect
  log : List LogEntry
  closed : Bool
  thrown : Option String
deriving DecidableEq, Repr

/-- The move handler.  With `revertLog` present: load the log (abort with a
console message if that fails), unarchive every MOVED id via `revertLoop`,
then delegate to the import-revert collaborator.  Otherwise (forward path):
run the copy collaborator; if it reports failure, return at once (note: no
`close()`); else run `archiveLoop` over the exported ids and call `close()`
only when the loop did not throw. -/
def moveHandler (env : MoveEnv) (revertLog : Option String) : MoveRun :=
  match revertLog with
  | some _ =>
    match env.loadLog with
    | .error _ =>
      { effects := [.consoleLog "Could not open the import log! Aborting."],
        log := [], closed := false, thrown := none }
    | .ok entries =>
      match revertLoop env (getData "MOVED" entries) with
      | (t, some e) => { effects := t, log := [], closed := false, thrown := some e }
      | (t, none) =>
        { effects := t ++ [.revertDelegate], log := [], closed := false, thrown := none }
  | none =>
    if env.copySuccess = false then
      { effects := [], log := [], closed := false, thrown := none }
    else
      match archiveLoop env env.exportedIds with
      | (t, l, some e) => { effects := t, log := l, closed := false, thrown := some e }
      | (t, l, none) => { effects := t, log := l, closed := true, thrown := none }

/-- The log entries the archive phase appends for a single exported id. -/
def archivePerItemLog (env : MoveEnv) (id : String) : List LogEntry :=
  match env.fetch id, env.archiveOutcome id with
  | .ok item, .ok _ => [.action "MOVED" item.id]
  | .ok item, .error e => [.comment ("ARCHIVE FAILED: " ++ item.id), .comment e]
  | .error _, _ => []

/-- A run in which the copy collaborator reports failure. -/
def envCopyFail : MoveEnv :=
  { copySuccess := false
    exportedIds := ["a"]
    fetch := fun i => .ok { id := i, status := Status.active }
    archiveOutcome := fun _ => .ok ()
    unarchiveOutcome := fun _ => .ok ()
    loadLog := .ok [] }

/-- A run in which copy succeeds and the single exported item is fetched with
status ARCHIVED, and its `archive()` call succeeds. -/
def envArchived : MoveEnv :=
  { copySuccess := true
    exportedIds := ["a"]
    fetch := fun i => .ok { id := i, status := Status.archived }
    archiveOutcome := fun _ => .ok ()
    unarchiveOutcome := fun _ => .ok ()
    loadLog := .ok [] }

/-- A run in which copy succeeds and the fetch of the first exported item
throws while the second would succeed. -/
def envFetchFail : MoveEnv :=
  { copySuccess := true
    exportedIds := ["a", "b"]
    fetch := fun i => if i = "a" then .error "NOT FOUND" else .ok { id := i, status := Status.active }
    archiveOutcome := fun _ => .ok ()
    unarchiveOutcome := fun _ => .ok ()
    loadLog := .ok [] }

/-! ## Filename allocation (export side)

`uniqueFilenamePath` lives in services/export.service, which is not among the
provided sources; it is modelled from the spec: allocate a filename derived
from the display name, appending a numeric suffix until it collides with no
taken filename. -/

/-- Little-endian decimal digits of `n`, with `fuel` bounding the recursion
depth (`fuel = n` suffices). -/
def decDigitsAux : Nat → Nat → List Nat
  | 0, _ => []
  | _ + 1, 0 => []
  | fuel + 1, n + 1 => ((n + 1) % 10) :: decDigitsAux fuel ((n + 1) / 10)

/-- Little-endian decimal digits of `n`. -/
def decDigits (n : Nat) : List Nat := decDigitsAux n n

/-- Recombine little-endian decimal digits into the number they denote. -/
def ofDecDigits : List Nat → Nat
  | [] => 0
  | d :: ds => d + 10 * ofDecDigits ds

/-- Decimal string rendering of a positive number. -/
def decString (n : Nat) : String :=
  String.mk ((decDigits n).reverse.map Nat.digitChar)

/-- The numeric de-duplication suffix: empty for the first attempt, then
"-1", "-2", and so on. -/
def suffixString : Nat → String
  | 0 => ""
  | n + 1 => "-" ++ decString (n + 1)

/-- The n-th candidate filename for a display name: `dir/name.ext`,
`dir/name-1.ext`, `dir/name-2.ext`, ...  (the directory prefix is omitted
when the directory is empty). -/
def fileCandidate (dir name ext : String) (n : Nat) : String :=
  (if dir = "" then "" else dir ++ "/") ++ name ++ suffixString n ++ "." ++ ext

/-- Modelled from the spec: `uniqueFilenamePath` (services/export.service is
not among the provided sources) de-duplicates a filename derived from the
display name against the taken filenames by appending a numeric suffix until
unique.  Searching `taken.length + 1` candidates always finds a free one
(`uniqueFilenamePath_not_mem`); the fallback branch is unreachable. -/
def uniqueFilenamePath (dir name ext : String) (taken : List String) : String :=
  match (List.range (taken.length + 1)).find?
      (fun n => !(taken.contains (fileCandidate dir name ext n))) with
  | some n => fileCandidate dir name ext n
  | none => fileCandidate dir name ext (taken.length + 1)

/-! ## Event export model -/

/-- Classification of one export record: CREATED, UPDATED or UP-TO-DATE. -/
inductive ExportResult where
  | created
  | updated
  | upToDate
deriving DecidableEq, Repr

/-- An edition with its (optionally enriched) slots; slot payloads are
abstracted to strings. -/
structure Edition where
  id : String
  slots : Option (List String)
deriving DecidableEq, Repr

/-- The fields of an event the export command reads.  `id` is `Option` so a
missing remote id (as in files whose id was stripped on export) is `none`;
`start`/`stop` are the event dates as abstract timestamps (the source field
named `end` is rendered `stop` here); `editions` is `none` until enrichment
attaches the fetched editions. -/
structure Event where
  id : Option String
  name : String
  start : Int
  stop : Int
  editions : Option (List Edition)
deriving DecidableEq, Repr

/-- JavaScript falsiness of an optional id (`!event.id`): true for a missing
id and for the empty string. -/
def jsFalsyId : Option String → Bool
  | none => true
  | some s => s = ""

/-- One export record: `{ filename, status, event }`. -/
structure ExportRecord where
  filename : String
  status : ExportResult
  event : Event
deriving DecidableEq, Repr

/-- One entry of the updated-exports map: `{ uri, filename }`. -/
structure ExportsMapEntry where
  uri : String
  filename : String
deriving DecidableEq, Repr

/-- The keys of a JavaScript-object-like association list
(`Object.keys(previouslyExportedEvents)`). -/
def keysOf (prev : List (String × Event)) : List String :=
  prev.map Prod.fst

/-- JavaScript `Array.prototype.findIndex`: index of the first element
satisfying the predicate, or none. -/
def jsFindIndex (p : Event → Bool) : List Event → Option Nat
  | [] => none
  | x :: xs => if p x then some 0 else (jsFindIndex p xs).map (· + 1)

/-- JavaScript object assignment `obj[k] = v` on an association list: replace
the value at an existing key, otherwise append the new binding. -/
def objUpsert (prev : List (String × Event)) (k : String) (v : Event) :
    List (String × Event) :=
  if prev.any (fun kv => kv.fst == k) then
    prev.map (fun kv => if kv.fst == k then (k, v) else kv)
  else prev ++ [(k, v)]

/-- `getExportRecordForEvent`: look up the event's remote id among the values
of the previously-exported index.  No match: allocate a fresh de-duplicated
filename, reserve it in the index at once, status CREATED.  Match: reuse the
existing filename at the matched index, status UPDATED — the structural
equality check against the previous export is commented out in the source, so
UP-TO-DATE is never produced.  Returns the record together with the updated
index. -/
def getExportRecordForEvent (event : Event) (outputDir : String)
    (prev : List (String × Event)) : ExportRecord × List (String × Event) :=
  match jsFindIndex (fun c => c.id == event.id) (prev.map Prod.snd) with
  | none =>
    let filename := uniqueFilenamePath outputDir event.name "json" (keysOf prev)
    ({ filename := filename, status := .created, event := event },
     objUpsert prev filename event)
  | some i =>
    let filename := (keysOf prev).getD i ""
    ({ filename := filename, status := .updated, event := event }, prev)

/-- The loop body of `getEventExports`: walk the batch in order, skipping
events with a falsy id, collecting all records, the updated-exports map
entries, and threading the (mutated) previously-exported index. -/
def getEventExportsGo (outputDir : String) (prev : List (String × Event)) :
    List Event → List ExportRecord × List ExportsMapEntry × List (String × Event)
  | [] => ([], [], prev)
  | event :: rest =>
    if jsFalsyId event.id then getEventExportsGo outputDir prev rest
    else
      match getExportRecordForEvent event outputDir prev with
      | (record, prev2) =>
        match getEventExportsGo outputDir prev2 rest with
        | (recs, upd, prevF) =>
          (record :: recs,
           (if record.status = .updated then
              [{ uri := event.id.getD "", filename := record.filename }]
            else []) ++ upd,
           prevF)

/-- `getEventExports`: the records and the updated-exports map for a batch. -/
def getEventExports (outputDir : String) (prev : List (String × Event))
    (eventsBeingExported : List Event) : List ExportRecord × List ExportsMapEntry :=
  match getEventExportsGo outputDir prev eventsBeingExported with
  | (recs, upd, _) => (recs, upd)

/-- Environment of collaborator outcomes for one run of the export handler:
outcome of `hubs.get`, of `events.get(id)`, of listing the hub's events, of
the per-event editions fetch, of the per-edition slots fetch, and the answer
the user gives to the overwrite prompt. -/
structure ExportEnv where
  hubGet : Except String Unit
  eventGet : Except String Event
  eventsList : Except String (List Event)
  editionsList : Event → Except String (List Edition)
  slotsList : Edition → Except String (List String)
  promptAnswer : Bool

/-- Observable operations of the export handler, in order.  `errorLine`
carries the message and the error; `nothingExportedNotice` is the non-error
"nothing to export" exit (`nothingExportedExit`, modelled from the spec:
print the notice and return without error); `ensureDir` is the creation of
the output directory; `writeFile` is `writeJsonToFile` of an entity. -/
inductive ExpEffect where
  | logLine (msg : String)
  | errorLine (msg : String) (err : String)
  | nothingExportedNotice (msg : Option String)
  | promptOverwrite
  | ensureDir (dir : String)
  | tableHeader
  | tableRow (filename : String) (name : String) (status : ExportResult)
  | writeFile (filename : String) (event : Event)
  | stdoutNewline
  | closeLog
deriving DecidableEq, Repr

/-- `enrichEditions`: fetch the slots of each edition in order and attach
them; a slot fetch failure is not caught here, so it propagates (to the
caller's catch). -/
def enrichEditions (env : ExportEnv) : List Edition → Except String (List Edition)
  | [] => .ok []
  | ed :: rest =>
    match env.slotsList ed with
    | .error e => .error e
    | .ok slots =>
      match enrichEditions env rest with
      | .error e => .error e
      | .ok eds => .ok ({ ed with slots := some slots } :: eds)

/-- The loop of `enrichEvents`: for each event, log the fetch, try to fetch
and enrich its editions (a failure of either is caught: log the error and
leave the event without editions), and continue. -/
def enrichEventsLoop (env : ExportEnv) : List Event → List Event × List ExpEffect
  | [] => ([], [])
  | event :: rest =>
    match
      (match (env.editionsList event).bind (enrichEditions env) with
       | .ok eds => ({ event with editions := some eds }, ([] : List ExpEffect))
       | .error e =>
         (event, [.errorLine ("Failed to fetch editions for " ++ event.name ++ ", skipping.") e]))
    with
    | (ev2, fx2) =>
      match enrichEventsLoop env rest with
      | (evs, fxs) =>
        (ev2 :: evs,
         .logLine ("Fetching " ++ event.name ++ " with editions.") :: fx2 ++ fxs)

/-- `enrichEvents`: run the enrichment loop, then drop every event whose
editions could not be fetched. -/
def enrichEvents (env : ExportEnv) (events : List Event) : List Event × List ExpEffect :=
  match enrichEventsLoop env events with
  | (evs, fx) => (evs.filter (fun e => e.editions.isSome), fx)

/-- The effects of the write loop of `processEvents` for one record: write the
file (with the remote id stripped) unless UP-TO-DATE, then emit the summary
row. -/
def writeRowFx (r : ExportRecord) : List ExpEffect :=
  (if r.status ≠ ExportResult.upToDate then
     [ExpEffect.writeFile r.filename { r.event with id := none }]
   else []) ++ [.tableRow r.filename r.event.name r.status]

/-- `processEvents`: empty batch — exit with the "nothing to export" notice;
otherwise enrich, diff, and: zero records — exit with the notice; records but
with UPDATED entries — prompt, and exit with the notice when the user
declines; otherwise ensure the output directory exists and write every
non-up-to-date record. -/
def processEvents (env : ExportEnv) (outputDir : String)
    (prev : List (String × Event)) (eventsBeingExported : List Event) : List ExpEffect :=
  if eventsBeingExported.length = 0 then
    [.nothingExportedNotice (some "No events to export from this hub, exiting.\n")]
  else
    match enrichEvents env eventsBeingExported with
    | (enriched, enrichFx) =>
      match getEventExports outputDir prev enriched with
      | (allExports, updatedExportsMap) =>
        if allExports.length = 0 then
          enrichFx ++ [.nothingExportedNotice none]
        else if updatedExportsMap.length > 0 then
          if env.promptAnswer then
            enrichFx ++ [ExpEffect.promptOverwrite, .ensureDir outputDir, .tableHeader]
              ++ allExports.flatMap writeRowFx ++ [.stdoutNewline]
          else
            enrichFx ++ [ExpEffect.promptOverwrite, .nothingExportedNotice none]
        else
          enrichFx ++ [ExpEffect.ensureDir outputDir, .tableHeader]
            ++ allExports.flatMap writeRowFx ++ [.stdoutNewline]

/-- `filterEvents`: keep an event unless it ends before the from-date or
starts after the to-date. -/
def filterEvents (events : List Event) (fromDate toDate : Option Int) : List Event :=
  events.filter fun event =>
    (match fromDate with
     | some f => decide (f ≤ event.stop)
     | none => true)
    && (match toDate with
     | some t => decide (event.start ≤ t)
     | none => true)

/-- How a run of the export handler ended: aborted while getting the hub,
aborted while getting the single event, or ran to completion. -/
inductive ExportOutcome where
  | abortedHub
  | abortedEvent
  | completed
deriving DecidableEq, Repr

/-- JavaScript truthiness of the optional `id` argument. -/
def jsTruthyId (id : Option String) : Bool := !(jsFalsyId id)

/-- The export handler: get the hub (on failure log, close, abort); with a
truthy `id`, get that one event (on failure log, close, abort); otherwise
list the hub's events (on failure log the error and continue with an empty
batch) and date-filter them; then `processEvents`, a final log line, and
`close()`. -/
def exportHandler (env : ExportEnv) (hubId : String) (id : Option String)
    (dir : String) (fromDate toDate : Option Int)
    (prev : List (String × Event)) : List ExpEffect × ExportOutcome :=
  match env.hubGet with
  | .error e =>
    ([.errorLine ("Could not get hub with id " ++ hubId ++ ", aborting.") e, .closeLog],
     .abortedHub)
  | .ok _ =>
    if jsTruthyId id then
      match env.eventGet with
      | .error e =>
        ([.errorLine ("Failed to get event with id " ++ id.getD "" ++ ", aborting.") e,
          .closeLog], .abortedEvent)
      | .ok ev =>
        ([.logLine ("Exporting single event " ++ ev.name ++ ".")]
           ++ processEvents env dir prev [ev] ++ [.logLine "Done.", .closeLog], .completed)
    else
      match env.eventsList with
      | .error e =>
        ([.errorLine "Failed to list events." e]
           ++ processEvents env dir prev [] ++ [.logLine "Done.", .closeLog], .completed)
      | .ok storedEvents =>
        match filterEvents storedEvents fromDate toDate with
        | filteredEvents =>
          ([.logLine ("Exporting " ++ toString filteredEvents.length ++ " of "
              ++ toString storedEvents.length ++ " events...")]
             ++ processEvents env dir prev filteredEvents ++ [.logLine "Done.", .closeLog],
           .completed)

/-- The remote ids of the events of a batch that the export loop does not
skip (those with a truthy id), in order. -/
def eligibleIds (events : List Event) : List (Option String) :=
  (events.filter (fun e => !jsFalsyId e.id)).map Event.id

/-- Whether an effect writes a file or creates the output directory. -/
def isWriteOrDir : ExpEffect → Bool
  | .writeFile _ _ => true
  | .ensureDir _ => true
  | _ => false

/-- An event with the given id and name (dates and editions irrelevant to the
claims exercised on it). -/
def mkEvent (id : Option String) (name : String) : Event :=
  { id := id, name := name, start := 0, stop := 0, editions := none }

/-- An event with a null remote id, as in the spec scenario. -/
def evNull : Event := mkEvent none "x"

/-- Two events with distinct remote ids and the same display name. -/
def evX1 : Event := mkEvent (some "1") "x"

def evX2 : Event := mkEvent (some "2") "x"

/-- A previously exported index entry whose filename collides with the
display name of the batch events. -/
def prevW : List (String × Event) := [("x.json", mkEvent (some "0") "x")]

def eventsW : List Event := [evX1, evX2]

/-- A batch event and an index entry sharing the remote id "a". -/
def evMatch : Event := mkEvent (some "a") "z"

def prevMatch : List (String × Event) := [("f.json", mkEvent (some "a") "y")]

/-- An export environment in which every remote call succeeds (with empty
edition lists) and the user accepts the overwrite prompt. -/
def envExp : ExportEnv :=
  { hubGet := .ok ()
    eventGet := .ok evNull
    eventsList := .ok []
    editionsList := fun _ => .ok []
    slotsList := fun _ => .ok []
    promptAnswer := true }

/-- Like `envExp` but the user declines the overwrite prompt. -/
def envExpDecline : ExportEnv :=
  { hubGet := .ok ()
    eventGet := .ok evNull
    eventsList := .ok []
    editionsList := fun _ => .ok []
    slotsList := fun _ => .ok []
    promptAnswer := false }

/-- An export environment in which listing the hub's events throws. -/
def envExpListFail : ExportEnv :=
  { hubGet := .ok ()
    eventGet := .error "Error"
    eventsList := .error "Error"
    editionsList := fun _ => .ok []
    slotsList := fun _ => .ok []
    promptAnswer := true }

/-- An index entry matching `evX1` by id, so its export is classified
UPDATED. -/
def prevU : List (String × Event) := [("x.json", mkEvent (some "1") "x")]

def eventsU : List Event := [evX1]

/-! ## Move command lemmas and claims -/

theorem archiveLoop_char (env : MoveEnv) :
    ∀ ids : List String, (∀ id ∈ ids, ∃ item, env.fetch id = .ok item) →
      archiveLoop env ids
        = (ids.flatMap (fun id => [MoveEffect.getItem id, MoveEffect.archiveCall id]),
           ids.flatMap (archivePerItemLog env), none) := by
  intro ids
  induction ids with
  | nil => intro _; rfl
  | cons id rest ih =>
    intro h
    obtain ⟨item, hitem⟩ := h id (List.mem_cons_self _ _)
    have hrest := ih (fun j hj => h j (List.mem_cons_of_mem _ hj))
    cases harch : env.archiveOutcome id with
    | ok u =>
      simp [archiveLoop, hitem, harch, hrest, archivePerItemLog]
    | error e =>
      simp [archiveLoop, hitem, harch, hrest, archivePerItemLog]

theorem archiveLoop_abort (env : MoveEnv) :
    ∀ (pre : List String) (id : String) (post : List String) (e : String),
      (∀ j ∈ pre, ∃ item, env.fetch j = .ok item) →
      env.fetch id = .error e →
      archiveLoop env (pre ++ id :: post)
        = (pre.flatMap (fun j => [MoveEffect.getItem j, MoveEffect.archiveCall j])
             ++ [MoveEffect.getItem id],
           pre.flatMap (archivePerItemLog env), some e) := by
  intro pre
  induction pre with
  | nil =>
    intro id post e _ hfail
    simp [archiveLoop, hfail]
  | cons j pre ih =>
    intro id post e h hfail
    obtain ⟨item, hitem⟩ := h j (List.mem_cons_self _ _)
    have hrest := ih id post e (fun k hk => h k (List.mem_cons_of_mem _ hk)) hfail
    cases harch : env.archiveOutcome j with
    | ok u =>
      simp [archiveLoop, hitem, harch, hrest, archivePerItemLog]
    | error e2 =>
      simp [archiveLoop, hitem, harch, hrest, archivePerItemLog]

/-- C1: on the forward path, if the copy collaborator reports overall failure,
the move handler performs no effect at all (in particular no
`contentItems.get` and no `archive()` call) and appends nothing to the log
(in particular no MOVED entry). -/
theorem moveHandler_copyFailure_untouched (env : MoveEnv)
    (h : env.copySuccess = false) :
    (moveHandler env none).effects = [] ∧ (moveHandler env none).log = [] := by
  simp [moveHandler, h]

theorem moveHandler_copyFailure_untouched_witness :
    envCopyFail.copySuccess = false ∧
    ((moveHandler envCopyFail none).effects = [] ∧ (moveHandler envCopyFail none).log = []) :=
  ⟨rfl, moveHandler_copyFailure_untouched envCopyFail rfl⟩

/-- C2 counterexample: the item fetched for id "a" already has status
ARCHIVED, yet the handler still calls `archive()` on it (one `archiveCall`
effect, not zero) and appends a MOVED entry for it.  There is no
already-archived skip in the forward archive loop. -/
theorem moveHandler_archives_already_archived :
    (moveHandler envArchived none).effects
        = [MoveEffect.getItem "a", MoveEffect.archiveCall "a"] ∧
    (moveHandler envArchived none).log = [LogEntry.action "MOVED" "a"] := by
  constructor <;> rfl

/-- C2 amended: the archive phase never inspects the fetched status: for
every exported id whose fetch succeeds it calls `archive()` exactly once, and
appends a MOVED entry exactly when that call succeeds (two comments when it
fails).  Re-running the phase therefore repeats the `archive()` calls and
appends MOVED again whenever they succeed. -/
theorem moveHandler_archive_unconditional (env : MoveEnv)
    (hcopy : env.copySuccess = true)
    (hfetch : ∀ id ∈ env.exportedIds, ∃ item, env.fetch id = .ok item) :
    (moveHandler env none).effects
        = env.exportedIds.flatMap (fun id => [MoveEffect.getItem id, MoveEffect.archiveCall id]) ∧
    (moveHandler env none).log = env.exportedIds.flatMap (archivePerItemLog env) ∧
    (moveHandler env none).thrown = none := by
  have hloop := archiveLoop_char env env.exportedIds hfetch
  simp [moveHandler, hcopy, hloop]

theorem moveHandler_archive_unconditional_witness :
    envArchived.copySuccess = true ∧
    ((moveHandler envArchived none).effects
        = envArchived.exportedIds.flatMap
            (fun id => [MoveEffect.getItem id, MoveEffect.archiveCall id]) ∧
     (moveHandler envArchived none).log
        = envArchived.exportedIds.flatMap (archivePerItemLog envArchived) ∧
     (moveHandler envArchived none).thrown = none) :=
  ⟨rfl, moveHandler_archive_unconditional envArchived rfl
    (fun id _ => ⟨{ id := id, status := Status.archived }, rfl⟩)⟩

/-- C3 counterexample: with exported ids ["a", "b"] and the fetch of "a"
throwing, the handler performs only the fetch attempt for "a": no comment is
appended, "b" is never processed, and the error escapes the handler. -/
theorem moveHandler_fetch_failure_aborts :
    (moveHandler envFetchFail none).effects = [MoveEffect.getItem "a"] ∧
    (moveHandler envFetchFail none).log = [] ∧
    (moveHandler envFetchFail none).thrown = some "NOT FOUND" := by
  refine ⟨?_, ?_, ?_⟩ <;> decide

/-- C3 amended: only `archive()` failures are per-item recoverable: when every
fetch succeeds the loop processes all ids to completion, appending comments
for failed archive calls and continuing; but a fetch failure is not caught: it
aborts the remaining ids and escapes the handler as an exception. -/
theorem moveHandler_per_item_only_archive (env : MoveEnv)
    (hcopy : env.copySuccess = true) :
    ((∀ id ∈ env.exportedIds, ∃ item, env.fetch id = .ok item) →
       (moveHandler env none).thrown = none ∧
       (moveHandler env none).effects
          = env.exportedIds.flatMap
              (fun id => [MoveEffect.getItem id, MoveEffect.archiveCall id]) ∧
       (moveHandler env none).log = env.exportedIds.flatMap (archivePerItemLog env)) ∧
    (∀ (pre : List String) (id : String) (post : List String) (e : String),
       env.exportedIds = pre ++ id :: post →
       (∀ j ∈ pre, ∃ item, env.fetch j = .ok item) →
       env.fetch id = .error e →
       (moveHandler env none).thrown = some e ∧
       (moveHandler env none).effects
          = pre.flatMap (fun j => [MoveEffect.getItem j, MoveEffect.archiveCall j])
              ++ [MoveEffect.getItem id]) := by
  constructor
  · intro hfetch
    have hloop := archiveLoop_char env env.exportedIds hfetch
    simp [moveHandler, hcopy, hloop]
  · intro pre id post e hids hpre hfail
    have hloop := archiveLoop_abort env pre id post e hpre hfail
    rw [← hids] at hloop
    simp [moveHandler, hcopy, hloop]

theorem moveHandler_per_item_only_archive_witness :
    envFetchFail.copySuccess = true ∧
    ((moveHandler envFetchFail none).thrown = some "NOT FOUND" ∧
     (moveHandler envFetchFail none).effects
        = ([] : List String).flatMap
            (fun j => [MoveEffect.getItem j, MoveEffect.archiveCall j])
            ++ [MoveEffect.getItem "a"]) :=
  ⟨rfl, (moveHandler_per_item_only_archive envFetchFail rfl).2 [] "a" ["b"] "NOT FOUND"
    rfl (by simp) (by simp [envFetchFail])⟩

/-- C4 counterexample: when the copy collaborator reports failure, the handler
exits on the early-return path (no exception is thrown) without ever calling
`close()` on the FileLog it created. -/
theorem moveHandler_early_return_skips_close :
    (moveHandler envCopyFail none).closed = false ∧
    (moveHandler envCopyFail none).thrown = none := by
  constructor <;> rfl

/-- C4 amended: on the forward path, `close()` is called exactly on the runs
where the copy collaborator reported success and the archive loop completed
without an uncaught error; the copy-failure early return and an uncaught
fetch error both exit without closing the log. -/
theorem moveHandler_close_iff (env : MoveEnv) :
    (moveHandler env none).closed = true ↔
      (env.copySuccess = true ∧ (archiveLoop env env.exportedIds).2.2 = none) := by
  cases hcopy : env.copySuccess with
  | false => simp [moveHandler, hcopy]
  | true =>
    rcases hloop : archiveLoop env env.exportedIds with ⟨t, l, r⟩
    cases r with
    | none => simp [moveHandler, hcopy, hloop]
    | some e => simp [moveHandler, hcopy, hloop]

/-- C5: the revert loop handles each MOVED id independently: its trace is the
concatenation of the per-item traces (fetch failure: skip message, continue;
status not ACTIVE: `unarchive()` with a skip message on failure; status
ACTIVE: informational message) and no exception ever escapes the loop,
however many items fail. -/
theorem revertLoop_independent (env : MoveEnv) (ids : List String) :
    revertLoop env ids = (ids.flatMap (revertPerItem env), none) := by
  induction ids with
  | nil => rfl
  | cons id rest ih =>
    cases hfetch : env.fetch id with
    | error e => simp [revertLoop, revertPerItem, hfetch, ih]
    | ok item =>
      by_cases hst : item.status = Status.active
      · simp [revertLoop, revertPerItem, hfetch, hst, ih]
      · cases hun : env.unarchiveOutcome id with
        | ok u => simp [revertLoop, revertPerItem, hfetch, hst, hun, ih]
        | error e => simp [revertLoop, revertPerItem, hfetch, hst, hun, ih]

theorem string_contains_iff (l : List String) (x : String) :
    l.contains x = true ↔ x ∈ l := by
  simp [List.contains_iff_exists_mem_beq, beq_iff_eq, eq_comm]

theorem ofDecDigits_decDigitsAux :
    ∀ fuel n, n ≤ fuel → ofDecDigits (decDigitsAux fuel n) = n := by
  intro fuel
  induction fuel with
  | zero =>
    intro n h
    have : n = 0 := Nat.le_zero.mp h
    subst this
    rfl
  | succ fuel ih =>
    intro n h
    match n with
    | 0 => rfl
    | k + 1 =>
      have hdiv : (k + 1) / 10 ≤ fuel := by
        have hlt : (k + 1) / 10 < k + 1 := Nat.div_lt_self (Nat.succ_pos k) (by norm_num)
        omega
      simp [decDigitsAux, ofDecDigits, ih _ hdiv]
      omega

theorem decDigitsAux_lt10 :
    ∀ fuel n d, d ∈ decDigitsAux fuel n → d < 10 := by
  intro fuel
  induction fuel with
  | zero => intro n d h; simp [decDigitsAux] at h
  | succ fuel ih =>
    intro n d h
    match n with
    | 0 => simp [decDigitsAux] at h
    | k + 1 =>
      simp only [decDigitsAux, List.mem_cons] at h
      rcases h with h | h
      · subst h; exact Nat.mod_lt _ (by omega)
      · exact ih _ _ h

theorem decDigits_injective {a b : Nat} (h : decDigits a = decDigits b) : a = b := by
  have ha := ofDecDigits_decDigitsAux a a (Nat.le_refl a)
  have hb := ofDecDigits_decDigitsAux b b (Nat.le_refl b)
  rw [← ha, ← hb]
  unfold decDigits at h
  rw [h]

theorem digitChar_inj10 :
    ∀ a, a < 10 → ∀ b, b < 10 → Nat.digitChar a = Nat.digitChar b → a = b := by decide

theorem map_digitChar_inj :
    ∀ l1 l2 : List Nat, (∀ d ∈ l1, d < 10) → (∀ d ∈ l2, d < 10) →
      l1.map Nat.digitChar = l2.map Nat.digitChar → l1 = l2 := by
  intro l1
  induction l1 with
  | nil => intro l2 _ _ h; cases l2 <;> simp_all
  | cons d l1 ih =>
    intro l2 h1 h2 h
    cases l2 with
    | nil => simp at h
    | cons e l2 =>
      simp only [List.map_cons, List.cons.injEq] at h
      have hd : d = e :=
        digitChar_inj10 d (h1 d (List.mem_cons_self _ _)) e (h2 e (List.mem_cons_self _ _)) h.1
      have ht : l1 = l2 :=
        ih l2 (fun x hx => h1 x (List.mem_cons_of_mem _ hx))
          (fun x hx => h2 x (List.mem_cons_of_mem _ hx)) h.2
      rw [hd, ht]

theorem string_eq_of_data {s t : String} (h : s.data = t.data) : s = t := by
  cases s; cases t; simp_all

theorem decString_injective {a b : Nat} (h : decString a = decString b) : a = b := by
  have hdata : ((decDigits a).reverse.map Nat.digitChar)
      = ((decDigits b).reverse.map Nat.digitChar) := congrArg String.data h
  have hrev : (decDigits a).reverse = (decDigits b).reverse :=
    map_digitChar_inj _ _
      (fun d hd => decDigitsAux_lt10 a a d (List.mem_reverse.mp hd))
      (fun d hd => decDigitsAux_lt10 b b d (List.mem_reverse.mp hd)) hdata
  exact decDigits_injective (List.reverse_injective hrev)

theorem decDigits_succ_ne_nil (n : Nat) : decDigits (n + 1) ≠ [] := by
  simp [decDigits, decDigitsAux]

theorem suffixString_inj {m n : Nat} (h : suffixString m = suffixString n) : m = n := by
  match m, n with
  | 0, 0 => rfl
  | 0, k + 1 =>
    exfalso
    have hd := congrArg String.data h
    simp only [suffixString, String.data_append, decString] at hd
    have hlen := congrArg List.length hd
    simp at hlen
  | k + 1, 0 =>
    exfalso
    have hd := congrArg String.data h
    simp only [suffixString, String.data_append, decString] at hd
    have hlen := congrArg List.length hd
    simp at hlen
  | k + 1, j + 1 =>
    have hd := congrArg String.data h
    simp only [suffixString, String.data_append] at hd
    have h3 := List.append_cancel_left hd
    exact decString_injective (string_eq_of_data h3)

theorem fileCandidate_inj (dir name ext : String) {m n : Nat}
    (h : fileCandidate dir name ext m = fileCandidate dir name ext n) : m = n := by
  have hd := congrArg String.data h
  simp only [fileCandidate, String.data_append, List.append_assoc] at hd
  have h1 := List.append_cancel_left hd
  have h2 := List.append_cancel_left h1
  have h3 := List.append_cancel_right h2
  exact suffixString_inj (string_eq_of_data h3)

theorem exists_fresh_candidate (dir name ext : String) (taken : List String) :
    ∃ n ∈ List.range (taken.length + 1), fileCandidate dir name ext n ∉ taken := by
  by_contra hall
  push_neg at hall
  have hinj : Set.InjOn (fileCandidate dir name ext)
      ↑(Finset.range (taken.length + 1)) :=
    fun a _ b _ h => fileCandidate_inj dir name ext h
  have hsub : (Finset.range (taken.length + 1)).image (fileCandidate dir name ext)
      ⊆ taken.toFinset := by
    intro x hx
    simp only [Finset.mem_image, Finset.mem_range] at hx
    obtain ⟨n, hn, rfl⟩ := hx
    exact List.mem_toFinset.mpr (hall n (List.mem_range.mpr hn))
  have hcard := Finset.card_le_card hsub
  rw [Finset.card_image_of_injOn hinj, Finset.card_range] at hcard
  have := List.toFinset_card_le taken
  omega

theorem uniqueFilenamePath_not_mem (dir name ext : String) (taken : List String) :
    uniqueFilenamePath dir name ext taken ∉ taken := by
  unfold uniqueFilenamePath
  cases hf : (List.range (taken.length + 1)).find?
      (fun n => !(taken.contains (fileCandidate dir name ext n))) with
  | some m =>
    have hp := List.find?_some hf
    simp only [Bool.not_eq_true'] at hp
    intro hmem
    rw [(string_contains_iff taken _).mpr hmem] at hp
    cases hp
  | none =>
    obtain ⟨n, hn, hfresh⟩ := exists_fresh_candidate dir name ext taken
    have hpred := List.find?_eq_none.mp hf n hn
    simp only [Bool.not_eq_true', Bool.not_eq_false] at hpred
    exact absurd ((string_contains_iff taken _).mp hpred) hfresh

/-! ## Export helper lemmas -/

theorem lookup_mem_keys {l : List (String × Event)} {k : String} {v : Event}
    (h : l.lookup k = some v) : k ∈ keysOf l := by
  rw [List.lookup_eq_some_iff] at h
  obtain ⟨l1, l2, rfl, -⟩ := h
  simp [keysOf]

theorem lookup_none_of_not_mem {l : List (String × Event)} {k : String}
    (h : k ∉ keysOf l) : l.lookup k = none := by
  rw [List.lookup_eq_none_iff]
  intro p hp
  have hmem : p.1 ∈ keysOf l := List.mem_map.mpr ⟨p, hp, rfl⟩
  simp only [bne_iff_ne, ne_eq]
  rintro rfl
  exact h hmem

theorem lookup_append_left_mem {l1 l2 : List (String × Event)} {k : String}
    (hk : k ∈ keysOf l1) : (l1 ++ l2).lookup k = l1.lookup k := by
  rw [List.lookup_append]
  obtain ⟨p, hp, hfst⟩ := List.mem_map.mp hk
  have hs : (l1.lookup k).isSome := by
    rw [List.lookup_isSome_iff]
    exact ⟨p, hp, by simp [hfst]⟩
  cases hl : l1.lookup k with
  | none => rw [hl] at hs; cases hs
  | some v => rfl

theorem lookup_append_fresh {l : List (String × Event)} {k : String} {v : Event}
    (h : k ∉ keysOf l) : (l ++ [(k, v)]).lookup k = some v := by
  rw [List.lookup_append, lookup_none_of_not_mem h]
  simp

theorem objUpsert_fresh {prev : List (String × Event)} {k : String} {v : Event}
    (h : k ∉ keysOf prev) : objUpsert prev k v = prev ++ [(k, v)] := by
  have hany : ¬ (prev.any (fun kv => kv.fst == k) = true) := by
    simp only [List.any_eq_true, beq_iff_eq]
    rintro ⟨kv, hkv, rfl⟩
    exact h (List.mem_map.mpr ⟨kv, hkv, rfl⟩)
  simp [objUpsert, hany]

theorem jsFindIndex_lt {p : Event → Bool} :
    ∀ {l : List Event} {i : Nat}, jsFindIndex p l = some i → i < l.length := by
  intro l
  induction l with
  | nil => intro i h; simp [jsFindIndex] at h
  | cons x xs ih =>
    intro i h
    by_cases hp : p x = true
    · simp only [jsFindIndex, hp, if_true] at h
      obtain rfl : (0 : Nat) = i := Option.some.inj h
      simp
    · simp only [jsFindIndex, hp, if_false, Bool.false_eq_true, ite_false,
        Option.map_eq_some'] at h
      obtain ⟨j, hj, rfl⟩ := h
      have := ih hj
      simp only [List.length_cons]
      omega

theorem findIndex_key_lookup {p : Event → Bool} :
    ∀ (prev : List (String × Event)) (i : Nat),
      (keysOf prev).Nodup →
      jsFindIndex p (prev.map Prod.snd) = some i →
      ∃ v, prev.lookup ((keysOf prev).getD i "") = some v ∧ p v = true := by
  intro prev
  induction prev with
  | nil => intro i _ h; simp [jsFindIndex] at h
  | cons kv rest ih =>
    intro i hnd h
    obtain ⟨k0, v0⟩ := kv
    by_cases hp : p v0 = true
    · simp only [List.map_cons, jsFindIndex, hp, if_true] at h
      obtain rfl : (0 : Nat) = i := Option.some.inj h
      refine ⟨v0, ?_, hp⟩
      simp [keysOf]
    · simp only [List.map_cons, jsFindIndex, hp, Bool.false_eq_true, if_false,
        ite_false, Option.map_eq_some'] at h
      obtain ⟨j, hj, rfl⟩ := h
      have hnd' : (keysOf rest).Nodup := by
        simp only [keysOf, List.map_cons, List.nodup_cons] at hnd
        exact hnd.2
      obtain ⟨v, hlk, hpv⟩ := ih j hnd' hj
      have hkj : (keysOf rest).getD j "" ∈ keysOf rest := lookup_mem_keys hlk
      have hne : (keysOf rest).getD j "" ≠ k0 := by
        intro he
        have hk0 : k0 ∉ keysOf rest := by
          simp only [keysOf, List.map_cons, List.nodup_cons] at hnd
          exact hnd.1
        rw [he] at hkj
        exact hk0 hkj
      refine ⟨v, ?_, hpv⟩
      have hget : (keysOf ((k0, v0) :: rest)).getD (j + 1) "" = (keysOf rest).getD j "" := by
        simp [keysOf]
      rw [hget, List.lookup_cons]
      simp only [beq_eq_false_iff_ne.mpr hne]
      exact hlk

theorem eligibleIds_cons_skip {e : Event} {rest : List Event}
    (h : jsFalsyId e.id = true) : eligibleIds (e :: rest) = eligibleIds rest := by
  simp [eligibleIds, List.filter_cons, h]

theorem eligibleIds_cons_keep {e : Event} {rest : List Event}
    (h : jsFalsyId e.id = false) : eligibleIds (e :: rest) = e.id :: eligibleIds rest := by
  simp [eligibleIds, List.filter_cons, h]

theorem getEventExportsGo_cons_skip (outputDir : String) (event : Event)
    (rest : List Event) (prev : List (String × Event))
    (hf : jsFalsyId event.id = true) :
    getEventExportsGo outputDir prev (event :: rest)
      = getEventExportsGo outputDir prev rest := by
  simp [getEventExportsGo, hf]

theorem getEventExportsGo_cons_keep (outputDir : String) (event : Event)
    (rest : List Event) (prev : List (String × Event)) (record : ExportRecord)
    (prev2 : List (String × Event)) (recs2 : List ExportRecord)
    (upd2 : List ExportsMapEntry) (prevF2 : List (String × Event))
    (hf : jsFalsyId event.id = false)
    (hrec : getExportRecordForEvent event outputDir prev = (record, prev2))
    (hgo2 : getEventExportsGo outputDir prev2 rest = (recs2, upd2, prevF2)) :
    getEventExportsGo outputDir prev (event :: rest)
      = (record :: recs2,
         (if record.status = ExportResult.updated then
            [{ uri := event.id.getD "", filename := record.filename }]
          else []) ++ upd2,
         prevF2) := by
  simp [getEventExportsGo, hf, hrec, hgo2]

theorem getEventExportsGo_invariant (outputDir : String) :
    ∀ (events : List Event) (prev : List (String × Event))
      (recs : List ExportRecord) (upd : List ExportsMapEntry)
      (prevF : List (String × Event)),
      getEventExportsGo outputDir prev events = (recs, upd, prevF) →
      (keysOf prev).Nodup →
      (eligibleIds events).Nodup →
      ((keysOf prevF).Nodup ∧
       (∀ k ∈ keysOf prev, k ∈ keysOf prevF) ∧
       (∀ k ∈ keysOf prev, prevF.lookup k = prev.lookup k) ∧
       (∀ r ∈ recs, ∃ v, prevF.lookup r.filename = some v ∧ v.id = r.event.id) ∧
       (∀ r ∈ recs, r.event.id ∈ eligibleIds events) ∧
       (recs.map ExportRecord.filename).Nodup ∧
       (∀ r ∈ recs, r.status = ExportResult.created → r.filename ∉ keysOf prev)) := by
  intro events
  induction events with
  | nil =>
    intro prev recs upd prevF hgo hnd _
    simp only [getEventExportsGo, Prod.mk.injEq] at hgo
    obtain ⟨h1, _, h3⟩ := hgo
    subst h1
    subst h3
    exact ⟨hnd, fun k hk => hk, fun k _ => rfl, by simp, by simp, by simp, by simp⟩
  | cons event rest ih =>
    intro prev recs upd prevF hgo hnd hel
    by_cases hf : jsFalsyId event.id = true
    · rw [getEventExportsGo_cons_skip outputDir event rest prev hf] at hgo
      rw [eligibleIds_cons_skip hf] at hel
      have H := ih prev recs upd prevF hgo hnd hel
      refine ⟨H.1, H.2.1, H.2.2.1, H.2.2.2.1, ?_, H.2.2.2.2.2.1, H.2.2.2.2.2.2⟩
      intro r hr
      rw [eligibleIds_cons_skip hf]
      exact H.2.2.2.2.1 r hr
    · have hf' : jsFalsyId event.id = false := by simpa using hf
      rw [eligibleIds_cons_keep hf'] at hel
      have hel_head : event.id ∉ eligibleIds rest := (List.nodup_cons.mp hel).1
      have hel_tail : (eligibleIds rest).Nodup := (List.nodup_cons.mp hel).2
      cases hfi : jsFindIndex (fun c => c.id == event.id) (prev.map Prod.snd) with
      | none =>
        have hfresh := uniqueFilenamePath_not_mem outputDir event.name "json" (keysOf prev)
        have hrec : getExportRecordForEvent event outputDir prev
            = ({ filename := uniqueFilenamePath outputDir event.name "json" (keysOf prev),
                 status := ExportResult.created, event := event },
               prev ++ [(uniqueFilenamePath outputDir event.name "json" (keysOf prev), event)]) := by
          simp only [getExportRecordForEvent, hfi]
          rw [objUpsert_fresh hfresh]
        generalize hfg : uniqueFilenamePath outputDir event.name "json" (keysOf prev) = f
          at hrec hfresh
        rcases hgo2 : getEventExportsGo outputDir (prev ++ [(f, event)]) rest
          with ⟨recs2, upd2, prevF2⟩
        rw [getEventExportsGo_cons_keep outputDir event rest prev _ _ _ _ _ hf' hrec hgo2]
          at hgo
        simp only [Prod.mk.injEq] at hgo
        obtain ⟨h1, -, h3⟩ := hgo
        subst h1
        subst h3
        have hkeys2 : keysOf (prev ++ [(f, event)]) = keysOf prev ++ [f] := by
          simp [keysOf]
        have hnd2 : (keysOf (prev ++ [(f, event)])).Nodup := by
          rw [hkeys2, List.nodup_append]
          refine ⟨hnd, List.nodup_singleton f, ?_⟩
          intro a ha hb
          simp only [List.mem_singleton] at hb
          subst hb
          exact hfresh ha
        have H := ih (prev ++ [(f, event)]) recs2 upd2 prevF2 hgo2 hnd2 hel_tail
        have hmem2 : ∀ k ∈ keysOf prev, k ∈ keysOf (prev ++ [(f, event)]) := by
          intro k hk
          rw [hkeys2]
          exact List.mem_append_left _ hk
        have hfk : f ∈ keysOf (prev ++ [(f, event)]) := by
          rw [hkeys2]
          simp
        have hlf : prevF2.lookup f = some event := by
          rw [H.2.2.1 f hfk, lookup_append_fresh hfresh]
        refine ⟨H.1, ?_, ?_, ?_, ?_, ?_, ?_⟩
        · intro k hk
          exact H.2.1 k (hmem2 k hk)
        · intro k hk
          rw [H.2.2.1 k (hmem2 k hk), lookup_append_left_mem hk]
        · intro r hr
          rcases List.mem_cons.mp hr with rfl | hmemr
          · exact ⟨event, hlf, rfl⟩
          · exact H.2.2.2.1 r hmemr
        · intro r hr
          rw [eligibleIds_cons_keep hf']
          rcases List.mem_cons.mp hr with rfl | hmemr
          · exact List.mem_cons_self _ _
          · exact List.mem_cons_of_mem _ (H.2.2.2.2.1 r hmemr)
        · simp only [List.map_cons, List.nodup_cons]
          refine ⟨?_, H.2.2.2.2.2.1⟩
          intro hmemf
          obtain ⟨r2, hr2, hrf⟩ := List.mem_map.mp hmemf
          obtain ⟨v, hlv, hvid⟩ := H.2.2.2.1 r2 hr2
          rw [hrf] at hlv
          rw [hlf] at hlv
          obtain rfl : event = v := Option.some.inj hlv
          have : r2.event.id ∈ eligibleIds rest := H.2.2.2.2.1 r2 hr2
          rw [← hvid] at this
          exact hel_head this
        · intro r hr hst
          rcases List.mem_cons.mp hr with rfl | hmemr
          · exact hfresh
          · intro hk
            exact H.2.2.2.2.2.2 r hmemr hst (hmem2 _ hk)
      | some i =>
        have hrec : getExportRecordForEvent event outputDir prev
            = ({ filename := (keysOf prev).getD i "",
                 status := ExportResult.updated, event := event }, prev) := by
          simp [getExportRecordForEvent, hfi]
        obtain ⟨v, hlv, hpv⟩ := findIndex_key_lookup prev i hnd hfi
        have hvid : v.id = event.id := eq_of_beq hpv
        have hkmem : (keysOf prev).getD i "" ∈ keysOf prev := lookup_mem_keys hlv
        rcases hgo2 : getEventExportsGo outputDir prev rest with ⟨recs2, upd2, prevF2⟩
        rw [getEventExportsGo_cons_keep outputDir event rest prev _ _ _ _ _ hf' hrec hgo2]
          at hgo
        simp only [Prod.mk.injEq] at hgo
        obtain ⟨h1, -, h3⟩ := hgo
        subst h1
        subst h3
        have H := ih prev recs2 upd2 prevF2 hgo2 hnd hel_tail
        have hlf : prevF2.lookup ((keysOf prev).getD i "") = some v := by
          rw [H.2.2.1 _ hkmem]
          exact hlv
        refine ⟨H.1, H.2.1, H.2.2.1, ?_, ?_, ?_, ?_⟩
        · intro r hr
          rcases List.mem_cons.mp hr with rfl | hmemr
          · exact ⟨v, hlf, hvid⟩
          · exact H.2.2.2.1 r hmemr
        · intro r hr
          rw [eligibleIds_cons_keep hf']
          rcases List.mem_cons.mp hr with rfl | hmemr
          · exact List.mem_cons_self _ _
          · exact List.mem_cons_of_mem _ (H.2.2.2.2.1 r hmemr)
        · simp only [List.map_cons, List.nodup_cons]
          refine ⟨?_, H.2.2.2.2.2.1⟩
          intro hmemf
          obtain ⟨r2, hr2, hrf⟩ := List.mem_map.mp hmemf
          obtain ⟨v2, hlv2, hvid2⟩ := H.2.2.2.1 r2 hr2
          rw [hrf] at hlv2
          rw [hlf] at hlv2
          obtain rfl : v = v2 := Option.some.inj hlv2
          have : r2.event.id ∈ eligibleIds rest := H.2.2.2.2.1 r2 hr2
          rw [← hvid2, hvid] at this
          exact hel_head this
        · intro r hr hst
          rcases List.mem_cons.mp hr with rfl | hmemr
          · simp at hst
          · exact H.2.2.2.2.2.2 r hmemr hst

/-- C6: in one export batch over a well-formed index (no duplicate filenames)
and remote entities with pairwise distinct ids, no two export records receive
the same filename — CREATED filenames are de-duplicated against both the
pre-existing index and filenames allocated earlier in the run (each is
reserved in the index at once), so they also never collide with the
pre-existing filenames. -/
theorem getEventExports_filenames_unique (outputDir : String)
    (prev : List (String × Event)) (events : List Event)
    (hnd : (keysOf prev).Nodup) (hids : (eligibleIds events).Nodup) :
    (((getEventExports outputDir prev events).1.map ExportRecord.filename).Nodup) ∧
    (∀ r ∈ (getEventExports outputDir prev events).1,
       r.status = ExportResult.created → r.filename ∉ keysOf prev) := by
  rcases hgo : getEventExportsGo outputDir prev events with ⟨recs, upd, prevF⟩
  have H := getEventExportsGo_invariant outputDir events prev recs upd prevF hgo hnd hids
  simp only [getEventExports, hgo]
  exact ⟨H.2.2.2.2.2.1, H.2.2.2.2.2.2⟩

theorem getEventExports_filenames_unique_witness :
    (keysOf prevW).Nodup ∧ (eligibleIds eventsW).Nodup ∧
    ((((getEventExports "" prevW eventsW).1.map ExportRecord.filename).Nodup) ∧
     (∀ r ∈ (getEventExports "" prevW eventsW).1,
        r.status = ExportResult.created → r.filename ∉ keysOf prevW)) :=
  ⟨by decide, by decide,
   getEventExports_filenames_unique "" prevW eventsW (by decide) (by decide)⟩

/-- C7 counterexample: a batch of two entities with null ids is skipped
entirely by the export loop (`if (!event.id) continue`): zero export records
are produced, and the run exits through the "nothing to export" notice with
no file written and no directory created — not two CREATED records. -/
theorem processEvents_null_ids_export_nothing :
    (getEventExports "" [] ((enrichEvents envExp [evNull, evNull]).1)).1 = [] ∧
    processEvents envExp "" [] [evNull, evNull]
      = [ExpEffect.logLine "Fetching x with editions.",
         ExpEffect.logLine "Fetching x with editions.",
         ExpEffect.nothingExportedNotice none] := by
  constructor <;> decide

/-- C7 amended: the scenario holds once the two entities carry (distinct)
non-null ids: exporting two events named "x" against an empty index yields
two CREATED records with filenames "x.json" and "x-1.json", and both files
are written. -/
theorem processEvents_name_collision_two_files :
    ((getEventExports "" [] ((enrichEvents envExp [evX1, evX2]).1)).1.map
        (fun r => (r.filename, r.status)))
      = [("x.json", ExportResult.created), ("x-1.json", ExportResult.created)] ∧
    processEvents envExp "" [] [evX1, evX2]
      = [ExpEffect.logLine "Fetching x with editions.",
         ExpEffect.logLine "Fetching x with editions.",
         ExpEffect.ensureDir "", ExpEffect.tableHeader,
         ExpEffect.writeFile "x.json" { evX1 with id := none, editions := some [] },
         ExpEffect.tableRow "x.json" "x" ExportResult.created,
         ExpEffect.writeFile "x-1.json" { evX2 with id := none, editions := some [] },
         ExpEffect.tableRow "x-1.json" "x" ExportResult.created,
         ExpEffect.stdoutNewline] := by
  constructor <;> decide

/-- C8: the diff step never returns UP-TO-DATE (the structural equality check
is commented out in the source), and whenever the entity's remote id matches
a previously-indexed value, the record is UPDATED and reuses the existing
filename at the matched index. -/
theorem getExportRecordForEvent_updated_never_upToDate (event : Event)
    (outputDir : String) (prev : List (String × Event)) :
    (getExportRecordForEvent event outputDir prev).1.status ≠ ExportResult.upToDate ∧
    (∀ i, jsFindIndex (fun c => c.id == event.id) (prev.map Prod.snd) = some i →
       (getExportRecordForEvent event outputDir prev).1.status = ExportResult.updated ∧
       (getExportRecordForEvent event outputDir prev).1.filename
         = (keysOf prev).getD i "") := by
  cases hfi : jsFindIndex (fun c => c.id == event.id) (prev.map Prod.snd) with
  | none =>
    constructor
    · simp [getExportRecordForEvent, hfi]
    · intro i hi
      simp at hi
  | some j =>
    constructor
    · simp [getExportRecordForEvent, hfi]
    · intro i hi
      obtain rfl : j = i := Option.some.inj hi
      simp [getExportRecordForEvent, hfi]

theorem getExportRecordForEvent_updated_never_upToDate_witness :
    (jsFindIndex (fun c => c.id == evMatch.id) (prevMatch.map Prod.snd) = some 0) ∧
    ((getExportRecordForEvent evMatch "" prevMatch).1.status = ExportResult.updated ∧
     (getExportRecordForEvent evMatch "" prevMatch).1.filename
       = (keysOf prevMatch).getD 0 "") :=
  ⟨by decide,
   (getExportRecordForEvent_updated_never_upToDate evMatch "" prevMatch).2 0 (by decide)⟩

theorem enrichEventsLoop_no_write (env : ExportEnv) :
    ∀ events : List Event, ∀ e ∈ (enrichEventsLoop env events).2, isWriteOrDir e = false := by
  intro events
  induction events with
  | nil => intro e he; simp [enrichEventsLoop] at he
  | cons ev rest ih =>
    intro e he
    rcases hl : enrichEventsLoop env rest with ⟨evs, fxs⟩
    rw [hl] at ih
    cases hb : (env.editionsList ev).bind (enrichEditions env) with
    | ok eds =>
      simp only [enrichEventsLoop, hb, hl, List.nil_append] at he
      rcases List.mem_cons.mp he with rfl | hmem
      · rfl
      · exact ih e hmem
    | error err =>
      simp only [enrichEventsLoop, hb, hl, List.cons_append, List.nil_append] at he
      rcases List.mem_cons.mp he with rfl | hmem
      · rfl
      · rcases List.mem_cons.mp hmem with rfl | hmem2
        · rfl
        · exact ih e hmem2

theorem enrichEvents_fx (env : ExportEnv) (events : List Event) :
    (enrichEvents env events).2 = (enrichEventsLoop env events).2 := by
  rcases hl : enrichEventsLoop env events with ⟨evs, fx⟩
  simp [enrichEvents, hl]

theorem getEventExportsGo_updated_ne_nil (outputDir : String) :
    ∀ (events : List Event) (prev : List (String × Event))
      (recs : List ExportRecord) (upd : List ExportsMapEntry)
      (prevF : List (String × Event)),
      getEventExportsGo outputDir prev events = (recs, upd, prevF) →
      ∀ r ∈ recs, r.status = ExportResult.updated → upd ≠ [] := by
  intro events
  induction events with
  | nil =>
    intro prev recs upd prevF hgo r hr _
    simp only [getEventExportsGo, Prod.mk.injEq] at hgo
    obtain ⟨h1, -, -⟩ := hgo
    subst h1
    simp at hr
  | cons ev rest ih =>
    intro prev recs upd prevF hgo r hr hs
    by_cases hf : jsFalsyId ev.id = true
    · rw [getEventExportsGo_cons_skip outputDir ev rest prev hf] at hgo
      exact ih prev recs upd prevF hgo r hr hs
    · have hf' : jsFalsyId ev.id = false := by simpa using hf
      rcases hrec : getExportRecordForEvent ev outputDir prev with ⟨record, prev2⟩
      rcases hgo2 : getEventExportsGo outputDir prev2 rest with ⟨recs2, upd2, prevF2⟩
      rw [getEventExportsGo_cons_keep outputDir ev rest prev _ _ _ _ _ hf' hrec hgo2] at hgo
      simp only [Prod.mk.injEq] at hgo
      obtain ⟨h1, h2, -⟩ := hgo
      subst h1
      subst h2
      rcases List.mem_cons.mp hr with rfl | hmem
      · rw [if_pos hs]
        simp
      · have h2ne := ih prev2 recs2 upd2 prevF2 hgo2 r hmem hs
        intro hnil
        exact h2ne (List.append_eq_nil.mp hnil).2

theorem getEventExports_updated_ne_nil (outputDir : String)
    (prev : List (String × Event)) (events : List Event) (r : ExportRecord)
    (hr : r ∈ (getEventExports outputDir prev events).1)
    (hs : r.status = ExportResult.updated) :
    (getEventExports outputDir prev events).2 ≠ [] := by
  rcases hgo : getEventExportsGo outputDir prev events with ⟨recs, upd, prevF⟩
  simp only [getEventExports, hgo] at hr ⊢
  exact getEventExportsGo_updated_ne_nil outputDir events prev recs upd prevF hgo r hr hs

/-- C9: whenever at least one record of the run is classified UPDATED, the
overwrite prompt is issued before any file write or directory creation
(everything preceding the prompt in the trace is enrichment logging), and if
the user declines, the run performs no file write and no directory creation
at all. -/
theorem processEvents_prompt_gates_writes (env : ExportEnv) (outputDir : String)
    (prev : List (String × Event)) (events : List Event)
    (hupd : ∃ r ∈ (getEventExports outputDir prev (enrichEvents env events).1).1,
              r.status = ExportResult.updated) :
    (∃ pre post, processEvents env outputDir prev events
        = pre ++ ExpEffect.promptOverwrite :: post ∧
        ∀ e ∈ pre, isWriteOrDir e = false) ∧
    (env.promptAnswer = false →
       ∀ e ∈ processEvents env outputDir prev events, isWriteOrDir e = false) := by
  obtain ⟨r, hr, hrs⟩ := hupd
  cases events with
  | nil =>
    exfalso
    simp [enrichEvents, enrichEventsLoop, getEventExports, getEventExportsGo] at hr
  | cons ev rest =>
    rcases hen : enrichEvents env (ev :: rest) with ⟨enriched, enrichFx⟩
    rw [hen] at hr
    rcases hex : getEventExports outputDir prev enriched with ⟨allExports, updMap⟩
    rw [hex] at hr
    simp only at hr
    have hne : ¬ (allExports.length = 0) := by
      intro h0
      rw [List.length_eq_zero] at h0
      subst h0
      simp at hr
    have hupdne : updMap ≠ [] := by
      have := getEventExports_updated_ne_nil outputDir prev enriched r (by rw [hex]; exact hr) hrs
      rw [hex] at this
      exact this
    have hlen2 : updMap.length > 0 := List.length_pos.mpr hupdne
    have hfxw : ∀ e ∈ enrichFx, isWriteOrDir e = false := by
      intro e he
      have hsnd : enrichFx = (enrichEventsLoop env (ev :: rest)).2 := by
        rw [← enrichEvents_fx env (ev :: rest), hen]
      rw [hsnd] at he
      exact enrichEventsLoop_no_write env (ev :: rest) e he
    have hpe : processEvents env outputDir prev (ev :: rest)
        = if env.promptAnswer then
            enrichFx ++ [ExpEffect.promptOverwrite, .ensureDir outputDir, .tableHeader]
              ++ allExports.flatMap writeRowFx ++ [.stdoutNewline]
          else enrichFx ++ [ExpEffect.promptOverwrite, .nothingExportedNotice none] := by
      simp only [processEvents, List.length_cons, hen, hex]
      rw [if_neg (by omega), if_neg hne, if_pos hlen2]
    constructor
    · by_cases hans : env.promptAnswer = true
      · refine ⟨enrichFx,
          [ExpEffect.ensureDir outputDir, ExpEffect.tableHeader]
            ++ allExports.flatMap writeRowFx ++ [ExpEffect.stdoutNewline], ?_, hfxw⟩
        rw [hpe, if_pos hans]
        simp
      · have hans' : env.promptAnswer = false := by simpa using hans
        refine ⟨enrichFx, [ExpEffect.nothingExportedNotice none], ?_, hfxw⟩
        rw [hpe, if_neg (by simp [hans'])]
    · intro hans e he
      rw [hpe, if_neg (by simp [hans])] at he
      rcases List.mem_append.mp he with h1 | h2
      · exact hfxw e h1
      · rcases List.mem_cons.mp h2 with rfl | h3
        · rfl
        · rcases List.mem_cons.mp h3 with rfl | h4
          · rfl
          · simp at h4

theorem processEvents_prompt_gates_writes_witness :
    (∃ r ∈ (getEventExports "" prevU (enrichEvents envExpDecline eventsU).1).1,
       r.status = ExportResult.updated) ∧
    ((∃ pre post, processEvents envExpDecline "" prevU eventsU
        = pre ++ ExpEffect.promptOverwrite :: post ∧
        ∀ e ∈ pre, isWriteOrDir e = false) ∧
     (envExpDecline.promptAnswer = false →
        ∀ e ∈ processEvents envExpDecline "" prevU eventsU, isWriteOrDir e = false)) :=
  ⟨by decide, processEvents_prompt_gates_writes envExpDecline "" prevU eventsU (by decide)⟩

/-- C10: if listing the hub's events throws (no-id path), the export handler
is not aborted as a fatal error: it logs the error, continues with an empty
batch, exits through the non-error "nothing to export" notice, writes no
file and creates no directory, and still closes the log. -/
theorem exportHandler_list_failure_graceful (env : ExportEnv) (hubId : String)
    (dir : String) (fromDate toDate : Option Int) (prev : List (String × Event))
    (e : String) (hhub : env.hubGet = .ok ()) (hlist : env.eventsList = .error e) :
    exportHandler env hubId none dir fromDate toDate prev
      = ([ExpEffect.errorLine "Failed to list events." e,
          ExpEffect.nothingExportedNotice
            (some "No events to export from this hub, exiting.\n"),
          ExpEffect.logLine "Done.", ExpEffect.closeLog], .completed) := by
  simp [exportHandler, hhub, hlist, jsTruthyId, jsFalsyId, processEvents]

theorem exportHandler_list_failure_graceful_witness :
    envExpListFail.hubGet = .ok () ∧ envExpListFail.eventsList = .error "Error" ∧
    exportHandler envExpListFail "hub-id" none "dir" none none []
      = ([ExpEffect.errorLine "Failed to list events." "Error",
          ExpEffect.nothingExportedNotice
            (some "No events to export from this hub, exiting.\n"),
          ExpEffect.logLine "Done.", ExpEffect.closeLog], .completed) :=
  ⟨rfl, rfl,
   exportHandler_list_failure_graceful envExpListFail "hub-id" "dir" none none [] "Error"
     rfl rfl⟩

end DcCli
